import Mathlib

/-
Verification development for the AMS server (Express + SQLite ICHI code
subsystem).  The JavaScript sources are shallowly embedded: strings are
lists of characters, each SQL query is modelled as a pure function over an
in-memory table, and the fixMissingCodes.js repair pass is a pure map over
the loaded rows (the script searches parents in the in-memory snapshot and
writes corrections back by id, so a single map over the original row list
is the faithful semantics).
-/

namespace AMS

/-- Strings from the JavaScript source are modelled as lists of characters. -/
abbrev Str := List Char

/-- Boolean test that the string (first argument) starts with the given
candidate (second argument); models JS String.startsWith and the anchored
part of SQL LIKE matching. -/
def startsWithB : Str → Str → Bool
  | _, [] => true
  | [], _ :: _ => false
  | a :: as, b :: bs => a == b && startsWithB as bs

/-- Boolean test that the string (first argument) contains the candidate
(second argument) as a contiguous substring; models JS String.includes. -/
def containsB : Str → Str → Bool
  | [], sub => startsWithB [] sub
  | c :: ts, sub => startsWithB (c :: ts) sub || containsB ts sub

/-- Bytewise lexicographic order on strings, the BINARY collation SQLite
uses for ORDER BY on the text columns of the ICHI table. -/
def lexLe : Str → Str → Bool
  | [], _ => true
  | _ :: _, [] => false
  | a :: as, b :: bs => if a == b then lexLe as bs else decide (a < b)

/-- Whitespace characters removed by JS String.trim (the ASCII ones that
can occur in a query parameter). -/
def isJsSpace (c : Char) : Bool :=
  c == ' ' || c == '\t' || c == '\n' || c == '\r'

/-- Models JS String.trim: drop whitespace from both ends. -/
def jsTrim (s : Str) : Str :=
  ((s.dropWhile isJsSpace).reverse.dropWhile isJsSpace).reverse

/-- Models JS String.split with separator dot: splitDots of an empty string
is one empty segment, and each dot starts a new segment. -/
def splitDots : Str → List Str
  | [] => [[]]
  | c :: cs =>
    match splitDots cs with
    | [] => [[]]
    | seg :: rest => if c == '.' then [] :: seg :: rest else (c :: seg) :: rest

/-- Models parent.code.split(dot).slice(0,2).join(dot) from fixMissingCodes.js:
keep the first two dot-segments of a code. -/
def firstTwoSegs (code : Str) : Str :=
  List.intercalate ['.'] ((splitDots code).take 2)

/-- ASCII uppercase letter test, the A-Z class of the repair regex. -/
def isUpperAZ (c : Char) : Bool := 'A' ≤ c && c ≤ 'Z'

/-- ASCII digit test, the digit class of the repair regex. -/
def isDigit09 (c : Char) : Bool := '0' ≤ c && c ≤ '9'

/-- Models the anchored regex of fixMissingCodes.js that recognises a flat
legacy code: one or more uppercase letters followed by zero or more digits,
matching the whole string. -/
def isFlatCode (code : Str) : Bool :=
  let ups := code.takeWhile isUpperAZ
  let rest := code.dropWhile isUpperAZ
  !ups.isEmpty && rest.all isDigit09

/-- Models JS String.replace with a global single-character pattern:
every occurrence of the character is replaced by the given string. -/
def replaceAll (c : Char) (sub : Str) : Str → Str
  | [] => []
  | x :: xs => (if x == c then sub else [x]) ++ replaceAll c sub xs

/-- Models the escaping chain of the search route:
q.replace of percent by backslash-percent, then of underscore by
backslash-underscore. -/
def escapeLike (q : Str) : Str :=
  replaceAll '_' ['\\', '_'] (replaceAll '%' ['\\', '%'] q)

/-- Models the construction of the LIKE pattern: the escaped term wrapped
in percent wildcards. -/
def mkPattern (q : Str) : Str :=
  '%' :: (escapeLike q ++ ['%'])

/-- Token of a LIKE pattern read with ESCAPE set to backslash: a literal
character, the percent wildcard (any sequence), or the underscore wildcard
(any single character). -/
inductive Tok where
  | lit (c : Char)
  | any
  | one
deriving DecidableEq

/-- Tokenization of a LIKE pattern under ESCAPE backslash: a backslash
makes the following character literal (a trailing lone backslash, which the
routes never produce, is read as a literal backslash). -/
def toks : Str → List Tok
  | [] => []
  | c :: cs =>
    if c == '\\' then
      match cs with
      | [] => [Tok.lit '\\']
      | d :: cs2 => Tok.lit d :: toks cs2
    else if c == '%' then Tok.any :: toks cs
    else if c == '_' then Tok.one :: toks cs
    else Tok.lit c :: toks cs

/-- Helper for the percent wildcard: test the continuation on every suffix
of the text. -/
def anyTail (f : Str → Bool) : Str → Bool
  | [] => f []
  | x :: ts => f (x :: ts) || anyTail f ts

/-- ASCII case folding performed by default SQLite LIKE: uppercase ASCII
letters are mapped to lowercase, every other character is unchanged. -/
def foldAZ (c : Char) : Char :=
  if isUpperAZ c then Char.ofNat (c.toNat + 32) else c

/-- Character comparison of default SQLite LIKE: equality after ASCII case
folding of both sides. -/
def eqIC (a b : Char) : Bool := foldAZ a == foldAZ b

/-- Test that the string (first argument) starts with the candidate
(second argument) up to ASCII case, the anchored comparison performed by
default SQLite LIKE. -/
def startsWithIC : Str → Str → Bool
  | _, [] => true
  | [], _ :: _ => false
  | a :: as, b :: bs => eqIC a b && startsWithIC as bs

/-- Test that the string (first argument) contains the candidate (second
argument) as a contiguous substring up to ASCII case. -/
def containsIC : Str → Str → Bool
  | [], sub => startsWithIC [] sub
  | c :: ts, sub => startsWithIC (c :: ts) sub || containsIC ts sub

/-- Matching of a tokenized LIKE pattern against a text with the ASCII
case-insensitive comparison of default SQLite LIKE: a literal token
consumes a character equal up to case, the underscore token consumes any
character, and the percent token matches any (possibly empty) prefix of
the remaining text. -/
def matchToks : List Tok → Str → Bool
  | [], t => t.isEmpty
  | Tok.lit c :: ks, t =>
    match t with
    | [] => false
    | x :: ts => eqIC x c && matchToks ks ts
  | Tok.one :: ks, t =>
    match t with
    | [] => false
    | _ :: ts => matchToks ks ts
  | Tok.any :: ks, t => anyTail (fun s => matchToks ks s) t

/-- Models default SQLite LIKE matching of a pattern against a text with
ESCAPE set to backslash (ASCII case-insensitive). -/
def likeM (p t : Str) : Bool := matchToks (toks p) t

/-- Models the SELECT expression LTRIM(REPLACE(Title, dash, empty), space)
of the refactored search route: remove every dash, then trim leading
spaces. -/
def cleanTitle (t : Str) : Str :=
  (t.filter (fun c => !(c == '-'))).dropWhile (fun c => c == ' ')

/-- Display-title derivation as the data model describes it: drop the
leading run of structural padding characters (dashes and spaces). -/
def stripPad (t : Str) : Str :=
  t.dropWhile (fun c => c == '-' || c == ' ')

/-- Boolean test that a string still begins with a padding character. -/
def hasPadHead : Str → Bool
  | [] => false
  | c :: _ => c == '-' || c == ' '

/-- Ordered insertion used to model the stable sort performed by ORDER BY. -/
def insertBy {α : Type} (le : α → α → Bool) (x : α) : List α → List α
  | [] => [x]
  | y :: ys => if le x y then x :: y :: ys else y :: insertBy le x ys

/-- Insertion sort; models the ordering clause of the SQL queries. -/
def sortBy {α : Type} (le : α → α → Bool) (l : List α) : List α :=
  l.foldr (insertBy le) []

/-- Models a SQL LIMIT clause: a negative limit means no limit in SQLite,
otherwise at most that many rows are returned. -/
def takeInt {α : Type} (n : Int) (l : List α) : List α :=
  if n < 0 then l else l.take n.toNat

/-- Models a SQL OFFSET clause: a negative offset skips nothing, otherwise
that many rows are skipped. -/
def dropInt {α : Type} (n : Int) (l : List α) : List α :=
  if n < 0 then l else l.drop n.toNat

/-- Models the limit computation of the routes: Math.min of the requested
limit (default 100) and 1000. -/
def effLimit (req : Option Int) : Int := min (req.getD 100) 1000

/-- Models the offset computation of the list route: Math.max of the
requested offset (default 0) and 0. -/
def effOffset (req : Option Int) : Int := max (req.getD 0) 0

/-- Models the sort-column whitelist of the list route: the column is
Title exactly when the caller passed Title, otherwise Code. -/
def sortField (req : Option Str) : Str :=
  if req = some ("Title".toList) then "Title".toList else "Code".toList

/-- Row of the ICHI table as fixMissingCodes.js reads it (id, code, title). -/
structure Row where
  id : Nat
  code : Str
  title : Str
deriving DecidableEq

/-- Classification entry as the refactored server selects it
(Code, BlockId, Title, ClassKind, DepthInKind). -/
structure Entry where
  code : Str
  blockId : Str
  title : Str
  classKind : Str
  depthInKind : Nat
deriving DecidableEq

/-- Parent condition of the repair heuristic: the other row's title
contains the candidate's title, its code starts with the candidate's code,
and its code differs from the candidate's code. -/
def parentCond (row r : Row) : Bool :=
  containsB r.title row.title && startsWithB r.code row.code && !(r.code == row.code)

/-- Repair of a single row: if its code is flat, find the first row of the
snapshot satisfying the parent condition and replace the code with the
first two dot-segments of that parent's code; otherwise leave the row. -/
def fixRow (rows : List Row) (row : Row) : Row :=
  if isFlatCode row.code then
    match rows.find? (parentCond row) with
    | some p => { row with code := firstTwoSegs p.code }
    | none => row
  else row

/-- Whole repair pass of fixMissingCodes.js: every row is repaired against
the original in-memory snapshot (the UPDATE statements do not change the
array the parent search runs over). -/
def fixCodes (rows : List Row) : List Row :=
  rows.map (fixRow rows)

/-- Comparator for ORDER BY Code. -/
def codeLe (a b : Entry) : Bool := lexLe a.code b.code

/-- Rows produced by the refactored (HTTPS) search query: filter by
DepthInKind equal to one and by the LIKE pattern, order by Code, apply the
limit. The argument qt is the already trimmed non-empty term. -/
def searchRefactoredRows (store : List Entry) (qt : Str) (limReq : Option Int) : List Entry :=
  takeInt (effLimit limReq)
    (sortBy codeLe
      (store.filter (fun e => e.depthInKind == 1 && likeM (mkPattern qt) e.title)))

/-- Result pairs of the refactored search: cleaned Title then Code. -/
def searchRefactored (store : List Entry) (qt : Str) (limReq : Option Int) :
    List (Str × Str) :=
  (searchRefactoredRows store qt limReq).map (fun e => (cleanTitle e.title, e.code))

/-- Rows produced by the legacy server.js search query: filter by the LIKE
pattern only (no depth condition), order by Code, apply the limit. -/
def searchLegacyRows (store : List Entry) (qt : Str) (limReq : Option Int) : List Entry :=
  takeInt (effLimit limReq)
    (sortBy codeLe (store.filter (fun e => likeM (mkPattern qt) e.title)))

/-- Result pairs of the legacy search: Code then raw stored Title. -/
def searchLegacy (store : List Entry) (qt : Str) (limReq : Option Int) :
    List (Str × Str) :=
  (searchLegacyRows store qt limReq).map (fun e => (e.code, e.title))

/-- Outcome of the search endpoint: a client error with status and body,
or the JSON result rows. -/
inductive SearchResult where
  | err (status : Nat) (body : Str)
  | ok (rows : List (Str × Str))
deriving DecidableEq

/-- Models the /ichi/search handler: read q (empty when absent), trim it,
reject an empty trimmed term with status 400 before any store query,
otherwise run the search. -/
def ichiSearch (store : List Entry) (q : Option Str) (limReq : Option Int) : SearchResult :=
  let qt := jsTrim (q.getD [])
  if qt = [] then .err 400 ("Missing query parameter q".toList)
  else .ok (searchLegacy store qt limReq)

/-- Comparator selected by the whitelisted sort column of the list route. -/
def keyLe (field : Str) (a b : Entry) : Bool :=
  if field = "Title".toList then lexLe a.title b.title else lexLe a.code b.code

/-- Models the /ichi list query: order by the whitelisted column, skip the
clamped offset, take the clamped limit. -/
def listRows (store : List Entry) (limReq offReq : Option Int) (sortReq : Option Str) :
    List Entry :=
  takeInt (effLimit limReq)
    (dropInt (effOffset offReq) (sortBy (keyLe (sortField sortReq)) store))

/-- Flat-coded entry of the concrete repair scenario. -/
def hfaRow : Row := ⟨1, ("HFA".toList), ("Drainage".toList)⟩

/-- Properly coded parent of the concrete repair scenario. -/
def abscessRow : Row := ⟨2, ("HFA.BA.01".toList), ("Drainage of abscess".toList)⟩

/-- Dataset of the concrete repair scenario. -/
def demoRows : List Row := [hfaRow, abscessRow]

/-- Flat-coded candidate used to probe parent selection. -/
def candRow : Row := ⟨1, ("HFA".toList), ("Drainage".toList)⟩

/-- Valid parent with the longer code. -/
def longParentRow : Row := ⟨2, ("HFA.CA.01".toList), ("Drainage of cyst".toList)⟩

/-- Valid parent with the shorter (and lexicographically smaller) code. -/
def shortParentRow : Row := ⟨3, ("HFA.BA".toList), ("Drainage of abscess".toList)⟩

/-- Dataset listing the longer-coded parent first. -/
def rowsLongFirst : List Row := [candRow, longParentRow, shortParentRow]

/-- Same dataset with the two parents swapped. -/
def rowsShortFirst : List Row := [candRow, shortParentRow, longParentRow]

/-- Dataset with pairwise distinct codes on which repair creates a
duplicate: the candidate is rewritten to its parent's own code. -/
def dupRows : List Row :=
  [⟨1, ("HFA".toList), ("Drainage".toList)⟩,
   ⟨2, ("HFA.BA".toList), ("Drainage of abscess".toList)⟩]

/-- Depth-one entry whose title matches the probe term. -/
def painDepth1 : Entry := ⟨("AAA.AA".toList), [], ("Pain control".toList), [], 1⟩

/-- Depth-two entry whose title matches the probe term. -/
def painDepth2 : Entry := ⟨("AAA".toList), [], ("Pain control".toList), [], 2⟩

/-- Entry whose stored title carries structural padding. -/
def padEntry : Entry := ⟨("AAA.AA".toList), [], ("- - Drainage of abscess".toList), [], 1⟩

/-- Entry whose title contains a backslash followed by another character. -/
def backslashEntry : Entry := ⟨("AAA.AA".toList), [], ('a' :: '\\' :: 'z' :: []), [], 1⟩

/-- Search term containing a literal percent preceded by a backslash. -/
def backslashTerm : Str := 'a' :: '\\' :: '%' :: []

/-- Entry whose title contains an uppercase letter and a literal percent,
matched case-insensitively by a lowercase term. -/
def caseEntry : Entry := ⟨("AAA.AA".toList), [], ("Pain% control".toList), [], 1⟩

/-- Lowercase search term with a literal percent, used against caseEntry. -/
def caseTerm : Str := ("pain%".toList)

/-- Stored title whose unpadded part contains an interior hyphen. -/
def interiorTitle : Str := ("- - Intra-abdominal drainage".toList)

/-- Two-entry store with codes out of order, used to exercise sorting. -/
def twoEntryStore : List Entry :=
  [⟨("BBB.AA".toList), [], ("Beta".toList), [], 1⟩,
   ⟨("AAA.AA".toList), [], ("Alpha".toList), [], 1⟩]

theorem mem_insertBy {α : Type} (le : α → α → Bool) (a x : α) (l : List α) :
    x ∈ insertBy le a l ↔ x = a ∨ x ∈ l := by
  induction l with
  | nil => simp [insertBy]
  | cons y ys ih =>
    simp only [insertBy]
    split
    · simp [List.mem_cons]
    · rw [List.mem_cons, ih, List.mem_cons]
      tauto

theorem mem_sortBy {α : Type} (le : α → α → Bool) (x : α) (l : List α) :
    x ∈ sortBy le l ↔ x ∈ l := by
  induction l with
  | nil => exact Iff.rfl
  | cons y ys ih =>
    show x ∈ insertBy le y (sortBy le ys) ↔ _
    rw [mem_insertBy, ih, List.mem_cons]

theorem mem_takeInt {α : Type} (n : Int) (x : α) (l : List α) (h : x ∈ takeInt n l) :
    x ∈ l := by
  unfold takeInt at h
  split at h
  · exact h
  · exact List.take_subset _ _ h

theorem filter_no_dash (t : Str) : ∀ c ∈ t.filter (fun c => !(c == '-')), c ≠ '-' := by
  intro c hc
  rw [List.mem_filter] at hc
  intro he
  subst he
  simp at hc

theorem cleanTitle_no_dash (t : Str) : ∀ c ∈ cleanTitle t, c ≠ '-' :=
  fun c hc => filter_no_dash t c ((List.dropWhile_sublist _).subset hc)

theorem hasPadHead_dropSpace :
    ∀ l : Str, (∀ c ∈ l, c ≠ '-') → hasPadHead (l.dropWhile (fun c => c == ' ')) = false := by
  intro l
  induction l with
  | nil => intro _; rfl
  | cons c cs ih =>
    intro h
    by_cases hc : c = ' '
    · subst hc
      rw [List.dropWhile_cons_of_pos (by simp)]
      exact ih (fun d hd => h d (List.mem_cons_of_mem _ hd))
    · rw [List.dropWhile_cons_of_neg (by simp [hc])]
      have hdash := h c (List.mem_cons_self c cs)
      simp [hasPadHead, hc, hdash]

theorem cleanTitle_noPad (t : Str) : hasPadHead (cleanTitle t) = false :=
  hasPadHead_dropSpace _ (filter_no_dash t)

theorem replaceAll_append (c : Char) (sub : Str) (a b : Str) :
    replaceAll c sub (a ++ b) = replaceAll c sub a ++ replaceAll c sub b := by
  induction a with
  | nil => rfl
  | cons x xs ih => simp [replaceAll, ih, List.append_assoc]

theorem escapeLike_cons (c : Char) (q : Str) :
    escapeLike (c :: q) =
      (if c = '%' then ['\\', '%'] else if c = '_' then ['\\', '_'] else [c]) ++ escapeLike q := by
  by_cases hp : c = '%'
  · subst hp
    simp [escapeLike, replaceAll, replaceAll_append]
  · by_cases hu : c = '_'
    · subst hu
      simp [escapeLike, replaceAll, replaceAll_append, hp]
    · simp [escapeLike, replaceAll, replaceAll_append, beq_iff_eq, hp, hu]

theorem anyTail_eq_true (f : Str → Bool) (h : f [] = true) : ∀ t, anyTail f t = true := by
  intro t
  induction t with
  | nil => simpa [anyTail]
  | cons x ts ih => simp [anyTail, ih]

theorem matchToks_lits (q : Str) :
    ∀ t, matchToks (q.map Tok.lit ++ [Tok.any]) t = startsWithIC t q := by
  induction q with
  | nil =>
    intro t
    have h1 : startsWithIC t [] = true := by cases t <;> rfl
    rw [h1]
    exact anyTail_eq_true _ rfl t
  | cons c q' ih =>
    intro t
    cases t with
    | nil => rfl
    | cons x ts =>
      show (eqIC x c && matchToks (q'.map Tok.lit ++ [Tok.any]) ts) =
        (eqIC x c && startsWithIC ts q')
      rw [ih ts]

theorem matchToks_contains (q : Str) :
    ∀ t, matchToks (Tok.any :: (q.map Tok.lit ++ [Tok.any])) t = containsIC t q := by
  intro t
  induction t with
  | nil => exact matchToks_lits q []
  | cons x ts ih =>
    show (matchToks (q.map Tok.lit ++ [Tok.any]) (x :: ts) ||
          anyTail (fun s => matchToks (q.map Tok.lit ++ [Tok.any]) s) ts) = _
    rw [matchToks_lits q (x :: ts)]
    show (startsWithIC (x :: ts) q ||
          matchToks (Tok.any :: (q.map Tok.lit ++ [Tok.any])) ts) = _
    rw [ih]
    rfl

theorem escapeLike_nil : escapeLike [] = [] := rfl

theorem toks_nil : toks [] = [] := rfl

theorem toks_esc (d : Char) (cs : Str) : toks ('\\' :: d :: cs) = Tok.lit d :: toks cs := by
  rw [toks]
  simp

theorem toks_any (cs : Str) : toks ('%' :: cs) = Tok.any :: toks cs := by
  rw [toks.eq_def]
  simp

theorem toks_lit (c : Char) (h1 : c ≠ '\\') (h2 : c ≠ '%') (h3 : c ≠ '_') (cs : Str) :
    toks (c :: cs) = Tok.lit c :: toks cs := by
  rw [toks.eq_def]
  simp [beq_iff_eq, h1, h2, h3]

theorem toks_escapeLike (q : Str) (hq : '\\' ∉ q) :
    toks (escapeLike q ++ ['%']) = q.map Tok.lit ++ [Tok.any] := by
  induction q with
  | nil =>
    rw [escapeLike_nil, List.nil_append, toks_any, toks_nil]
    rfl
  | cons c q' ih =>
    have hc : c ≠ '\\' := fun h => hq (h ▸ List.mem_cons_self c q')
    have hq' : '\\' ∉ q' := fun h => hq (List.mem_cons_of_mem c h)
    rw [escapeLike_cons, List.append_assoc]
    by_cases hp : c = '%'
    · subst hp
      rw [if_pos rfl]
      rw [show (['\\', '%'] ++ (escapeLike q' ++ ['%'])) = '\\' :: '%' :: (escapeLike q' ++ ['%']) from rfl]
      rw [toks_esc, ih hq']
      rfl
    · by_cases hu : c = '_'
      · subst hu
        rw [if_neg hp, if_pos rfl]
        rw [show (['\\', '_'] ++ (escapeLike q' ++ ['%'])) = '\\' :: '_' :: (escapeLike q' ++ ['%']) from rfl]
        rw [toks_esc, ih hq']
        rfl
      · rw [if_neg hp, if_neg hu]
        rw [show ([c] ++ (escapeLike q' ++ ['%'])) = c :: (escapeLike q' ++ ['%']) from rfl]
        rw [toks_lit c hc hp hu, ih hq']
        rfl

theorem likeM_mkPattern (q : Str) (hq : '\\' ∉ q) (t : Str) :
    likeM (mkPattern q) t = containsIC t q := by
  unfold likeM mkPattern
  rw [toks_any, toks_escapeLike q hq]
  exact matchToks_contains q t

/-- C1: for every repair candidate (flat code of uppercase letters then
digits), if some other entry has a title containing the candidate's title,
a code starting with the candidate's code, and a different code, then the
repair sets the candidate's code to the first two dot-segments of such a
parent's code. -/
theorem c1_repair_sets_first_two_segments (rows : List Row) (row : Row)
    (_hmem : row ∈ rows) (hflat : isFlatCode row.code = true)
    (hex : ∃ r ∈ rows, parentCond row r = true) :
    ∃ p ∈ rows, parentCond row p = true ∧
      fixRow rows row = { row with code := firstTwoSegs p.code } := by
  have hsome : (rows.find? (parentCond row)).isSome := by
    rw [List.find?_isSome]
    obtain ⟨r, hr, hpr⟩ := hex
    exact ⟨r, hr, hpr⟩
  obtain ⟨p, hp⟩ := Option.isSome_iff_exists.mp hsome
  refine ⟨p, List.mem_of_find?_eq_some hp, List.find?_some hp, ?_⟩
  simp [fixRow, hflat, hp]

/-- Witness for C1 at the concrete scenario: the flat entry with code HFA
and title Drainage, next to the entry with code HFA.BA.01 and title
Drainage of abscess, is repaired to code HFA.BA. -/
theorem c1_witness :
    (hfaRow ∈ demoRows) ∧ (isFlatCode hfaRow.code = true) ∧
    (∃ r ∈ demoRows, parentCond hfaRow r = true) ∧
    (∃ p ∈ demoRows, parentCond hfaRow p = true ∧
      fixRow demoRows hfaRow = { hfaRow with code := firstTwoSegs p.code }) ∧
    (fixCodes demoRows).map Row.code = [("HFA.BA".toList), ("HFA.BA.01".toList)] :=
  ⟨by decide, by decide, by decide,
   c1_repair_sets_first_two_segments demoRows hfaRow (by decide) (by decide) (by decide),
   by decide⟩

/-- C2: the claim says the repair picks the parent with the shortest code
(then lexicographically smallest) and is independent of iteration order;
the code instead picks the first matching row in scan order, so with both
parents present it derives HFA.CA from the longer-coded parent listed
first, and swapping the two parents changes the outcome to HFA.BA. -/
theorem c2_first_match_depends_on_order :
    parentCond candRow longParentRow = true ∧
    parentCond candRow shortParentRow = true ∧
    shortParentRow.code.length < longParentRow.code.length ∧
    (fixRow rowsLongFirst candRow).code = ("HFA.CA".toList) ∧
    (fixRow rowsShortFirst candRow).code = ("HFA.BA".toList) := by
  decide

/-- C3: repair does not preserve code uniqueness: on a store with pairwise
distinct codes HFA and HFA.BA, the candidate HFA is rewritten to HFA.BA,
which collides with the existing entry. -/
theorem c3_repair_breaks_uniqueness :
    (dupRows.map Row.code).Nodup ∧ ¬ ((fixCodes dupRows).map Row.code).Nodup := by
  decide

/-- C4 (amended): every row produced by the refactored (HTTPS) search has
DepthInKind equal to one; the depth filter sits in that query's WHERE
clause. -/
theorem c4_refactored_search_depth_one (store : List Entry) (qt : Str)
    (limReq : Option Int) (e : Entry) (h : e ∈ searchRefactoredRows store qt limReq) :
    e.depthInKind = 1 := by
  unfold searchRefactoredRows at h
  have h2 := mem_takeInt _ _ _ h
  rw [mem_sortBy, List.mem_filter] at h2
  have h3 := h2.2
  rw [Bool.and_eq_true] at h3
  exact beq_iff_eq.mp h3.1

/-- Witness for C4 at a concrete store and term. -/
theorem c4_witness :
    (painDepth1 ∈ searchRefactoredRows [painDepth1] ("Pain".toList) none) ∧
    painDepth1.depthInKind = 1 :=
  ⟨by decide,
   c4_refactored_search_depth_one [painDepth1] ("Pain".toList) none painDepth1 (by decide)⟩

/-- Counterexample for C4 as stated: the legacy server.js search applies
no depth condition, so a depth-two entry matching the term is returned. -/
theorem c4_counterexample_legacy_depth :
    ¬ (∀ e ∈ searchLegacyRows [painDepth2] ("Pain".toList) none, e.depthInKind = 1) := by
  decide

/-- C5 (amended): for every trimmed term free of backslash characters
(in particular any such term containing literal percent or underscore),
the escaped LIKE filter of the search selects exactly the entries whose
titles contain the term as a contiguous substring up to ASCII letter case
(default SQLite LIKE folds ASCII case); the escaped percent and underscore
never act as wildcards. -/
theorem c5_escape_round_trip (store : List Entry) (q : Str) (limReq : Option Int)
    (hq : '\\' ∉ q) :
    searchLegacyRows store q limReq =
      takeInt (effLimit limReq) (sortBy codeLe (store.filter (fun e => containsIC e.title q))) := by
  unfold searchLegacyRows
  have hfil : store.filter (fun e => likeM (mkPattern q) e.title) =
      store.filter (fun e => containsIC e.title q) :=
    List.filter_congr (fun e _ => likeM_mkPattern q hq e.title)
  rw [hfil]

/-- Witness for C5 at a term containing both wildcard characters. -/
theorem c5_witness :
    ('\\' ∉ ("a%b_c".toList)) ∧
    searchLegacyRows [painDepth1] ("a%b_c".toList) none =
      takeInt (effLimit none)
        (sortBy codeLe ([painDepth1].filter (fun e => containsIC e.title ("a%b_c".toList)))) :=
  ⟨by decide, c5_escape_round_trip [painDepth1] ("a%b_c".toList) none (by decide)⟩

/-- Counterexample for C5 as stated, in two parts. First, the term with a
literal percent preceded by a backslash matches an entry whose title does
not contain the term, because the backslash itself is never escaped and the
percent after the escaped backslash acts as a wildcard again. Second, a
lowercase term with a literal percent matches an entry whose title carries
the words capitalised, because default SQLite LIKE compares up to ASCII
case; in both cases the search returns an entry whose title does not
contain the trimmed term as a literal substring. -/
theorem c5_counterexample_backslash :
    (('%' ∈ backslashTerm) ∧ jsTrim backslashTerm = backslashTerm ∧
      searchLegacyRows [backslashEntry] backslashTerm none = [backslashEntry] ∧
      containsB backslashEntry.title backslashTerm = false) ∧
    (('%' ∈ caseTerm) ∧ jsTrim caseTerm = caseTerm ∧ ('\\' ∉ caseTerm) ∧
      searchLegacyRows [caseEntry] caseTerm none = [caseEntry] ∧
      containsB caseEntry.title caseTerm = false) := by
  decide

/-- C6 (amended): the effective limit is the minimum of the requested limit
(default 100) and 1000, so requests above 1000 clamp to exactly 1000 and
the effective limit never exceeds 1000, but a requested limit of zero or
below passes through unclamped; the effective offset defaults to 0, is
never negative, and negative requests clamp to exactly 0. -/
theorem c6_pagination_bounds :
    effLimit none = 100 ∧ effOffset none = 0 ∧
    (∀ n : Int, 1000 < n → effLimit (some n) = 1000) ∧
    (∀ n : Int, effLimit (some n) ≤ 1000) ∧
    (∀ n : Int, n ≤ 0 → effLimit (some n) = n) ∧
    (∀ m : Int, m < 0 → effOffset (some m) = 0) ∧
    (∀ m : Int, 0 ≤ effOffset (some m)) := by
  refine ⟨by simp [effLimit], by simp [effOffset], ?_, ?_, ?_, ?_, ?_⟩
  · intro n h
    simp only [effLimit, Option.getD]
    omega
  · intro n
    simp [effLimit]
  · intro n h
    simp only [effLimit, Option.getD]
    omega
  · intro m h
    simp only [effOffset, Option.getD]
    omega
  · intro m
    simp [effOffset]

/-- Witness for C6 at concrete over-limit and negative-offset requests. -/
theorem c6_witness :
    effLimit (some 2000) = 1000 ∧ effOffset (some (-7)) = 0 :=
  ⟨c6_pagination_bounds.2.2.1 2000 (by norm_num),
   c6_pagination_bounds.2.2.2.2.2.1 (-7) (by norm_num)⟩

/-- Counterexample for C6 as stated: a requested limit of zero yields an
effective limit of zero, which is outside the claimed interval from one to
one thousand. -/
theorem c6_counterexample_limit_zero :
    effLimit (some 0) = 0 ∧ ¬ (1 ≤ effLimit (some 0)) := by
  constructor
  · simp [effLimit]
  · simp [effLimit]

/-- C7: the sort column is always Code or Title, and any requested sort
value other than Title produces exactly the rows of an explicit sort by
Code. -/
theorem c7_sort_whitelist (store : List Entry) (limReq offReq : Option Int)
    (s : Option Str) :
    (sortField s = ("Code".toList) ∨ sortField s = ("Title".toList)) ∧
    (s ≠ some ("Title".toList) →
      listRows store limReq offReq s = listRows store limReq offReq (some ("Code".toList))) := by
  constructor
  · by_cases h : s = some ("Title".toList)
    · right
      unfold sortField
      rw [if_pos h]
    · left
      unfold sortField
      rw [if_neg h]
  · intro h
    have h1 : sortField s = ("Code".toList) := by
      unfold sortField
      rw [if_neg h]
    have h2 : sortField (some ("Code".toList)) = ("Code".toList) := by decide
    unfold listRows
    rw [h1, h2]

/-- Witness for C7 at a concrete store and an arbitrary sort value. -/
theorem c7_witness :
    (some ("Bogus".toList) ≠ some ("Title".toList)) ∧
    listRows twoEntryStore none none (some ("Bogus".toList)) =
      listRows twoEntryStore none none (some ("Code".toList)) :=
  ⟨by decide,
   (c7_sort_whitelist twoEntryStore none none (some ("Bogus".toList))).2 (by decide)⟩

/-- C9: a missing, empty, or all-whitespace query term is rejected with
status 400 and the fixed error body before the store is consulted (the
outcome does not depend on the store), and a term that trims to something
non-empty is never rejected for this reason. -/
theorem c9_missing_query_rejected (store : List Entry) (q : Option Str)
    (limReq : Option Int) :
    (jsTrim (q.getD []) = [] →
      ichiSearch store q limReq = SearchResult.err 400 ("Missing query parameter q".toList) ∧
      ichiSearch store q limReq = ichiSearch [] q limReq) ∧
    (jsTrim (q.getD []) ≠ [] →
      ichiSearch store q limReq =
        SearchResult.ok (searchLegacy store (jsTrim (q.getD [])) limReq)) := by
  constructor
  · intro h
    constructor
    · simp [ichiSearch, h]
    · simp [ichiSearch, h]
  · intro h
    simp [ichiSearch, h]

/-- Witness for C9 at an all-whitespace term and at a non-empty term. -/
theorem c9_witness :
    (jsTrim ((some ("   ".toList)).getD []) = []) ∧
    ichiSearch [painDepth1] (some ("   ".toList)) none =
      SearchResult.err 400 ("Missing query parameter q".toList) ∧
    (jsTrim ((some (" x ".toList)).getD []) ≠ []) ∧
    ichiSearch [painDepth1] (some (" x ".toList)) none =
      SearchResult.ok (searchLegacy [painDepth1] (jsTrim ((some (" x ".toList)).getD [])) none) :=
  ⟨by decide,
   ((c9_missing_query_rejected [painDepth1] (some ("   ".toList)) none).1 (by decide)).1,
   by decide,
   (c9_missing_query_rejected [painDepth1] (some (" x ".toList)) none).2 (by decide)⟩

/-- C8 (amended): every title emitted by the refactored (HTTPS) search is
the cleaned stored title, hence starts with no padding character and
contains no dash at all; the legacy server.js search returns the raw
stored title. -/
theorem c8_refactored_titles_clean (store : List Entry) (qt : Str)
    (limReq : Option Int) (p : Str × Str) (h : p ∈ searchRefactored store qt limReq) :
    hasPadHead p.1 = false ∧ ∀ c ∈ p.1, c ≠ '-' := by
  unfold searchRefactored at h
  rw [List.mem_map] at h
  obtain ⟨e, _, he⟩ := h
  rw [← he]
  exact ⟨cleanTitle_noPad e.title, cleanTitle_no_dash e.title⟩

/-- Witness for C8 at a padded stored title. -/
theorem c8_witness :
    ((("Drainage of abscess".toList), ("AAA.AA".toList)) ∈
      searchRefactored [padEntry] ("Drainage".toList) none) ∧
    hasPadHead ("Drainage of abscess".toList) = false :=
  ⟨by decide,
   (c8_refactored_titles_clean [padEntry] ("Drainage".toList) none
     ((("Drainage of abscess".toList), ("AAA.AA".toList))) (by decide)).1⟩

/-- Counterexample for C8 as stated: the legacy server.js search returns
the stored title with its leading padding intact. -/
theorem c8_counterexample_legacy_padding :
    ¬ (∀ p ∈ searchLegacy [padEntry] ("Drainage".toList) none, hasPadHead p.2 = false) := by
  decide

/-- C10: the search display-title derivation removes every dash anywhere in
the stored title and trims only leading spaces, so whenever the unpadded
part of a stored title contains a hyphen, the emitted title differs from
the stored title with its padding removed. -/
theorem c10_dash_removal_differs (t : Str) :
    cleanTitle t = (t.filter (fun c => !(c == '-'))).dropWhile (fun c => c == ' ') ∧
    (∀ c ∈ cleanTitle t, c ≠ '-') ∧
    ('-' ∈ stripPad t → cleanTitle t ≠ stripPad t) := by
  refine ⟨rfl, cleanTitle_no_dash t, ?_⟩
  intro hdash heq
  exact cleanTitle_no_dash t '-' (heq ▸ hdash) rfl

/-- Witness for C10 at a padded title with an interior hyphen. -/
theorem c10_witness :
    ('-' ∈ stripPad interiorTitle) ∧ cleanTitle interiorTitle ≠ stripPad interiorTitle :=
  ⟨by decide, (c10_dash_removal_differs interiorTitle).2.2 (by decide)⟩

end AMS
